import Mathlib

/-!
Shallow embedding of the comparative-analysis matrix engine of the
neurolit-ai repository (`src/components/ComparisonView.tsx`), together with
theorems settling the specification claims about it.

The data model follows `src/types.ts`: a `ComparisonPoint` is a named
criterion (a Dimension) carrying `paperInsights`, a JavaScript object
mapping paper id to insight text, which we model as an association list
with unique, insertion-ordered keys.  The matrix (`comparisonResult`) is a
`List ComparisonPoint`, wrapped in `Option` because the React state is
`ComparisonPoint[] | null`.

All string computation that theorems must evaluate concretely is done on
`List Char`, with structural definitions mirroring the JavaScript string
operations used by the source.
-/

namespace NeuroLit

/-- A document (`PaperAnalysis`), restricted to the fields the comparison
view reads: opaque `id`, `title`, and `fileName` (the reference label). -/
structure Paper where
  id : String
  title : String
  fileName : String
deriving DecidableEq

/-- Structure `ComparisonPoint` from `src/types.ts`: `criteria` names the Dimension,
`paperInsights` is the `Record<string, string>` from paper id to insight
text, modelled as an association list (JS object keys are unique and
insertion-ordered). -/
structure ComparisonPoint where
  criteria : String
  paperInsights : List (String × String)
deriving DecidableEq

/-- JS object read `obj[k]`: value at the first (unique) matching key. -/
def lookupKey (k : String) : List (String × String) → Option String
  | [] => none
  | (k', v) :: rest => if k' = k then some v else lookupKey k rest

/-- JS object spread update — spread the old object, then override key `k`
with `v`: an existing key keeps its position and gets the new value; a
fresh key is appended at the end. -/
def setKey (k v : String) : List (String × String) → List (String × String)
  | [] => [(k, v)]
  | (k', v') :: rest => if k' = k then (k, v) :: rest else (k', v') :: setKey k v rest

/-- Reading `point.paperInsights?.[paperId] || ""`: missing entry reads as "". -/
def getInsight (ins : List (String × String)) (paperId : String) : String :=
  (lookupKey paperId ins).getD ""

/-- The `comparisonResult.map(point => ...)` inside `updateCell`: every
point whose `criteria` equals `criteriaName` gets its
`paperInsights[paperId]` replaced by `newValue` (object spread), and all
other points are returned as-is. -/
def updateMatrix (res : List ComparisonPoint)
    (paperId criteriaName newValue : String) : List ComparisonPoint :=
  res.map fun point =>
    if point.criteria = criteriaName then
      { point with paperInsights := setKey paperId newValue point.paperInsights }
    else point

/-- Function `updateCell(paperId, criteriaName, newValue)` from ComparisonView:
if `comparisonResult` is null this is a no-op (early return); otherwise the
new matrix value `updateMatrix` is installed via `setComparisonResult`. -/
def updateCell (comparisonResult : Option (List ComparisonPoint))
    (paperId criteriaName newValue : String) : Option (List ComparisonPoint) :=
  match comparisonResult with
  | none => none
  | some res => some (updateMatrix res paperId criteriaName newValue)

/-- Read an insight entry through the matrix: the first Dimension named
`criteriaName` (there is at most one when names are unique), then the
insight recorded for `paperId` (`none` when either lookup misses). -/
def getCell (res : List ComparisonPoint) (criteriaName paperId : String) : Option String :=
  (res.find? fun p => p.criteria == criteriaName).bind
    fun p => lookupKey paperId p.paperInsights

/-- Definition `activeResultIds`: `Object.keys(comparisonResult[0].paperInsights || {})`
when the result is non-null and non-empty, else the empty list. -/
def activeResultIds (comparisonResult : Option (List ComparisonPoint)) : List String :=
  match comparisonResult with
  | some (p :: _) => p.paperInsights.map Prod.fst
  | _ => []

/-- Step 2 of the table derivation:
`papers.filter(p => activeResultIds.includes(p.id))` — the document-major
row set before sorting. -/
def baseTablePapers (comparisonResult : Option (List ComparisonPoint))
    (papers : List Paper) : List Paper :=
  papers.filter fun p => (activeResultIds comparisonResult).contains p.id

/-- Predicate `startsWithChars l p`: true when `p` is an initial segment of `l`
(JS `String.prototype.startsWith` on the character level). -/
def startsWithChars : List Char → List Char → Bool
  | _, [] => true
  | [], _ :: _ => false
  | a :: as, b :: bs => a = b && startsWithChars as bs

/-- JS `String.prototype.includes`: substring containment. -/
def containsChars : List Char → List Char → Bool
  | [], needle => startsWithChars [] needle
  | hay@(_ :: rest), needle => startsWithChars hay needle || containsChars rest needle

/-- Lowercasing `s.toLowerCase()` on the character level. -/
def lowerChars (s : String) : List Char := s.data.map Char.toLower

/-- The predicate of the Sorter's `find`:
`c.criteria.toLowerCase().includes('model') || c.criteria.toLowerCase().includes('architecture')`. -/
def isModelCriteria (c : ComparisonPoint) : Bool :=
  containsChars (lowerChars c.criteria) "model".data ||
    containsChars (lowerChars c.criteria) "architecture".data

/-- Call `comparisonResult.find(c => ...)`: the first Dimension whose lowercased
name contains "model" or "architecture". -/
def findModelCriteria (res : List ComparisonPoint) : Option ComparisonPoint :=
  res.find? isModelCriteria

/-- The sort key of a paper: the matched Dimension's insight text for that
paper (empty when absent), lowercased — `(modelCriteria.paperInsights?.[a.id] || "").toLowerCase()`. -/
def sortKey (modelCriteria : ComparisonPoint) (p : Paper) : List Char :=
  lowerChars (getInsight modelCriteria.paperInsights p.id)

/-- Derivation `tablePapers`: the filtered papers, stably sorted by the model-dimension
key when one exists (`tablePapers.sort((a,b) => modelA.localeCompare(modelB))`;
ECMAScript `Array.prototype.sort` is stable, and the comparator is modelled
as lexicographic order on the lowercased key).  With no matching Dimension
(or a null result) the baseline order is kept. -/
def tablePapers (comparisonResult : Option (List ComparisonPoint))
    (papers : List Paper) : List Paper :=
  match comparisonResult with
  | none => baseTablePapers comparisonResult papers
  | some res =>
    match findModelCriteria res with
    | none => baseTablePapers comparisonResult papers
    | some mc =>
        List.insertionSort (fun a b => sortKey mc a ≤ sortKey mc b)
          (baseTablePapers comparisonResult papers)

/-! ### CSV export (`downloadCSV`) -/

/-- Escaping `s.replace` of each quote by two quotes, on the character level. -/
def escapeQuotesChars : List Char → List Char
  | [] => []
  | c :: rest =>
      if c = '"' then '"' :: '"' :: escapeQuotesChars rest
      else c :: escapeQuotesChars rest

/-- A quoted CSV field: wrap in double quotes, doubling internal quotes. -/
def csvQuote (s : String) : String := ⟨'"' :: (escapeQuotesChars s.data ++ ['"'])⟩

/-- Deletion of bold markers, `text.replace` with the global two-star regex: delete every (non-overlapping, left-to-right)
occurrence of the two-character sequence `**`. -/
def stripBoldChars : List Char → List Char
  | '*' :: '*' :: rest => stripBoldChars rest
  | c :: rest => c :: stripBoldChars rest
  | [] => []

/-- The global regex replacement of `-` by `•`, character by character. -/
def dashToDot (c : Char) : Char := if c = '-' then '•' else c

/-- The insight normalization applied before CSV quoting: first delete all
`**`, then replace every `-` with `•`. -/
def normalizeInsight (s : String) : String :=
  ⟨(stripBoldChars s.data).map dashToDot⟩

/-- JS `list.join(sep)` for strings. -/
def joinWith (sep : String) : List String → String
  | [] => ""
  | s :: rest =>
      match rest with
      | [] => s
      | _ :: _ => s ++ sep ++ joinWith sep rest

/-- The header row `['Paper Title', 'Authors/Year (Ref)', ...criteriaNames].join(',')`.
Note the source does not quote header fields. -/
def csvHeader (res : List ComparisonPoint) : String :=
  joinWith "," ("Paper Title" :: "Authors/Year (Ref)" :: res.map fun c => c.criteria)

/-- One data row of the export: quoted title, quoted file name, then per
Dimension the paper's normalized, quoted insight; joined by commas. -/
def csvRow (res : List ComparisonPoint) (p : Paper) : String :=
  joinWith "," (csvQuote p.title :: csvQuote p.fileName ::
    res.map fun c => csvQuote (normalizeInsight (getInsight c.paperInsights p.id)))

/-- List `Object.keys(comparisonResult[0]?.paperInsights || {})` as computed
inside `downloadCSV`. -/
def paperIdsInResult (res : List ComparisonPoint) : List String :=
  match res with
  | [] => []
  | p :: _ => p.paperInsights.map Prod.fst

/-- The CSV text `[headers.join(','), ...rows].join('\n')`. -/
def csvContent (res : List ComparisonPoint) (relevantPapers : List Paper) : String :=
  joinWith "\n" (csvHeader res :: relevantPapers.map (csvRow res))

/-- Export `downloadCSV`: returns `none` exactly when the source's early-return
guard `!comparisonResult || selectedIds.size === 0` fires; otherwise the
produced CSV text, whose rows come from
`papers.filter(p => paperIdsInResult.includes(p.id))` — the baseline
filtered order, recomputed inside `downloadCSV`. -/
def downloadCSV (comparisonResult : Option (List ComparisonPoint))
    (papers : List Paper) (selectedIds : List String) : Option String :=
  match comparisonResult with
  | none => none
  | some res =>
      if selectedIds.isEmpty then none
      else some (csvContent res
        (papers.filter fun p => (paperIdsInResult res).contains p.id))

/-! ### The cell editor (`EditableCell`) -/

/-- The state of one `EditableCell` plus the store it commits into:
`comparisonResult` is the parent's matrix state, `value` the local draft,
`isEditing` the edit-mode flag. -/
structure EditorState where
  comparisonResult : Option (List ComparisonPoint)
  value : String
  isEditing : Bool
deriving DecidableEq

/-- Typing in the textarea: `setValue(e.target.value)`; no store change. -/
def onChangeCell (s : EditorState) (draft : String) : EditorState :=
  { s with value := draft }

/-- Handler `handleBlur`: `setIsEditing(false); onSave(value)`, where `onSave` is
`(newVal) => updateCell(paperId, point.criteria, newVal)`. -/
def handleBlur (paperId criteriaName : String) (s : EditorState) : EditorState :=
  { s with isEditing := false,
           comparisonResult := updateCell s.comparisonResult paperId criteriaName s.value }

/-- Handler `handleKeyDown` on Escape: `setIsEditing(false); setValue(initialValue)` —
the draft reverts to the baseline and the store is untouched. -/
def handleEscape (initialValue : String) (s : EditorState) : EditorState :=
  { s with isEditing := false, value := initialValue }

/-! ### Viewing-mode rendering (`renderContent`) -/

/-- An inline span of a rendered line: plain text or an emphasized
(`<strong>`) span. -/
inductive Inline where
  | plain (text : String)
  | bold (text : String)
deriving DecidableEq

/-- A rendered line: a bullet item or a plain paragraph. -/
inductive Block where
  | bullet (parts : List Inline)
  | para (parts : List Inline)
deriving DecidableEq

/-- The whole rendered cell: the empty-text placeholder, or the parsed
blocks. -/
inductive Rendered where
  | placeholder
  | content (blocks : List Block)
deriving DecidableEq

/-- Splitting `value.split('\n')` on the character level (empty string gives one
empty line, as in JS). -/
def splitLinesChars : List Char → List (List Char)
  | [] => [[]]
  | c :: rest =>
      if c = '\n' then [] :: splitLinesChars rest
      else
        match splitLinesChars rest with
        | [] => [[c]]
        | l :: ls => (c :: l) :: ls

/-- Trimming `line.trim()`: drop whitespace at both ends. -/
def trimChars (l : List Char) : List Char :=
  ((l.dropWhile Char.isWhitespace).reverse.dropWhile Char.isWhitespace).reverse

/-- Scanner for `cleanLine.split(/(\*\*.*?\*\*)/g)`.  `inMatch = false`:
looking for an opening `**`, `pre` accumulates the text before it.
`inMatch = true`: an opener was seen, `mid` accumulates the (lazy, so
shortest) match body until the next `**` closes it; an unterminated opener
makes the whole remainder one plain part, exactly as the regex finds no
further match there. -/
def splitBoldScan : List Char → List Char → Bool → List Char → List (List Char)
  | [], pre, inMatch, mid =>
      if inMatch then [pre ++ '*' :: '*' :: mid] else [pre]
  | c :: rest, pre, inMatch, mid =>
      if c = '*' then
        match rest, inMatch, mid with
        | '*' :: rest', false, _ => splitBoldScan rest' pre true []
        | '*' :: rest', true, mid' =>
            pre :: ('*' :: '*' :: (mid' ++ ['*', '*'])) :: splitBoldScan rest' [] false []
        | [], false, _ => [pre ++ [c]]
        | [], true, mid' => [pre ++ '*' :: '*' :: (mid' ++ [c])]
        | d :: rest', false, _ => splitBoldScan (d :: rest') (pre ++ [c]) false []
        | d :: rest', true, mid' => splitBoldScan (d :: rest') pre true (mid' ++ [c])
      else
        if inMatch then splitBoldScan rest pre true (mid ++ [c])
        else splitBoldScan rest (pre ++ [c]) false []

/-- The split on the captured lazy bold regex: alternately the text between
matches and the captured non-greedy `**…**` matches themselves (leftmost
match first, as the regex engine scans). -/
def splitBoldChars (l : List Char) : List (List Char) :=
  splitBoldScan l [] false []

/-- JS `String.prototype.endsWith` on the character level. -/
def endsWithChars (l p : List Char) : Bool :=
  startsWithChars l.reverse p.reverse

/-- One part of the bold split: if it starts and ends with `**` it renders
as an emphasized span of `part.slice(2, -2)`, otherwise as plain text. -/
def partToInline (part : List Char) : Inline :=
  if startsWithChars part ['*', '*'] && endsWithChars part ['*', '*'] then
    Inline.bold ⟨((part.drop 2).dropLast).dropLast⟩
  else Inline.plain ⟨part⟩

/-- Render one (already bullet-stripped) line: split on `**…**` pairs and
classify each part. -/
def renderLine (line : List Char) : List Inline :=
  (splitBoldChars line).map partToInline

/-- Classify and render one non-blank line: a bullet iff its trimmed form
starts with `- ` or `* ` (then the marker is stripped from the trimmed
line); otherwise a paragraph of the original, untrimmed line. -/
def lineToBlock (line : List Char) : Block :=
  let t := trimChars line
  if startsWithChars t ['-', ' '] || startsWithChars t ['*', ' '] then
    Block.bullet (renderLine (t.drop 2))
  else
    Block.para (renderLine line)

/-- Rendering `renderContent`: the falsy empty string shows the placeholder;
otherwise split into lines, drop blank (whitespace-only) lines, and render
each remaining line in order. -/
def renderContent (value : String) : Rendered :=
  if value = "" then Rendered.placeholder
  else
    Rendered.content
      (((splitLinesChars value.data).filter
          fun line => !(trimChars line).isEmpty).map lineToBlock)

/-- The text characters an inline span actually displays. -/
def inlineText : Inline → String
  | .plain t => t
  | .bold t => t

/-- All text displayed by a rendered cell, concatenated. -/
def renderedText : Rendered → String
  | .placeholder => ""
  | .content blocks =>
      joinWith "" (blocks.map fun b =>
        match b with
        | .bullet parts => joinWith "" (parts.map inlineText)
        | .para parts => joinWith "" (parts.map inlineText))

/-! ## Helper lemmas -/

theorem lookupKey_setKey_self (k v : String) :
    ∀ ins : List (String × String), lookupKey k (setKey k v ins) = some v := by
  intro ins
  induction ins with
  | nil => simp [setKey, lookupKey]
  | cons kv rest ih =>
      obtain ⟨k', v'⟩ := kv
      by_cases h : k' = k
      · simp [setKey, lookupKey, h]
      · simp [setKey, lookupKey, h, ih]

theorem lookupKey_setKey_other {k' k : String} (hne : k' ≠ k) (v : String) :
    ∀ ins : List (String × String), lookupKey k' (setKey k v ins) = lookupKey k' ins := by
  intro ins
  induction ins with
  | nil => simp [setKey, lookupKey, Ne.symm hne]
  | cons kv rest ih =>
      obtain ⟨k₀, v₀⟩ := kv
      by_cases h : k₀ = k
      · subst h
        simp [setKey, lookupKey, Ne.symm hne]
      · simp [setKey, lookupKey, h, ih]

theorem updateMatrix_cons (p : ComparisonPoint) (rest : List ComparisonPoint)
    (pid dim v : String) :
    updateMatrix (p :: rest) pid dim v =
      (if p.criteria = dim
       then { p with paperInsights := setKey pid v p.paperInsights }
       else p) :: updateMatrix rest pid dim v := rfl

theorem getCell_cons (p : ComparisonPoint) (rest : List ComparisonPoint)
    (dim' pid' : String) :
    getCell (p :: rest) dim' pid' =
      if p.criteria = dim' then lookupKey pid' p.paperInsights
      else getCell rest dim' pid' := by
  by_cases h : p.criteria = dim'
  · have hb : (p.criteria == dim') = true := by simp [h]
    simp [getCell, List.find?, hb, h]
  · have hb : (p.criteria == dim') = false := by simp [h]
    simp [getCell, List.find?, hb, h]

theorem updateMatrix_map_criteria (res : List ComparisonPoint) (pid dim v : String) :
    (updateMatrix res pid dim v).map ComparisonPoint.criteria
      = res.map ComparisonPoint.criteria := by
  induction res with
  | nil => rfl
  | cons p rest ih =>
      by_cases h : p.criteria = dim <;> simp [updateMatrix, h] <;>
        simpa [updateMatrix] using ih

theorem updateMatrix_get_eq (res : List ComparisonPoint) (pid dim v : String)
    (i : Nat) (hi : i < res.length) (hi' : i < (updateMatrix res pid dim v).length) :
    (updateMatrix res pid dim v).get ⟨i, hi'⟩ =
      (if (res.get ⟨i, hi⟩).criteria = dim
       then { res.get ⟨i, hi⟩ with
              paperInsights := setKey pid v (res.get ⟨i, hi⟩).paperInsights }
       else res.get ⟨i, hi⟩) := by
  simp [updateMatrix, List.get_eq_getElem, List.getElem_map]

theorem getCell_updateMatrix_hit (res : List ComparisonPoint) (pid dim v : String)
    (hmem : dim ∈ res.map ComparisonPoint.criteria) :
    getCell (updateMatrix res pid dim v) dim pid = some v := by
  induction res with
  | nil => simp at hmem
  | cons p rest ih =>
      rw [updateMatrix_cons]
      by_cases h : p.criteria = dim
      · rw [if_pos h, getCell_cons]
        simp [h, lookupKey_setKey_self]
      · have hmem' : dim ∈ rest.map ComparisonPoint.criteria := by
          rcases (by simpa using hmem : dim = p.criteria ∨
              ∃ a ∈ rest, a.criteria = dim) with h' | ⟨a, ha, ha'⟩
          · exact absurd h'.symm h
          · simp only [List.mem_map]
            exact ⟨a, ha, ha'⟩
        rw [if_neg h, getCell_cons, if_neg h]
        exact ih hmem'

theorem getCell_updateMatrix_miss (res : List ComparisonPoint) (pid dim v : String)
    (dim' pid' : String) (hother : ¬(dim' = dim ∧ pid' = pid)) :
    getCell (updateMatrix res pid dim v) dim' pid' = getCell res dim' pid' := by
  induction res with
  | nil => rfl
  | cons p rest ih =>
      rw [updateMatrix_cons]
      by_cases hd : p.criteria = dim
      · rw [if_pos hd]
        by_cases hd' : p.criteria = dim'
        · have hdd : dim' = dim := hd'.symm.trans hd
          have hpid : pid' ≠ pid := fun h => hother ⟨hdd, h⟩
          rw [getCell_cons, getCell_cons, if_pos (show (⟨p.criteria,
              setKey pid v p.paperInsights⟩ : ComparisonPoint).criteria = dim' from hd'),
            if_pos hd']
          exact lookupKey_setKey_other hpid v p.paperInsights
        · rw [getCell_cons, getCell_cons, if_neg (show (⟨p.criteria,
              setKey pid v p.paperInsights⟩ : ComparisonPoint).criteria = dim' → False
              from hd'), if_neg hd']
          exact ih
      · rw [if_neg hd, getCell_cons, getCell_cons]
        by_cases hd' : p.criteria = dim'
        · rw [if_pos hd', if_pos hd']
        · rw [if_neg hd', if_neg hd']
          exact ih

/-! ## Claims about `updateCell` -/

/-- C1: when the matrix's dimension names are pairwise distinct and some
dimension is named `dim`, `updateCell(doc, dim, text)` produces a new
matrix value (the old one, being a pure value, is untouched) in which the
insight at `(dim, doc)` is `text`, while every dimension name, the
dimension order, and every other `(dimension, document)` insight entry are
unchanged. -/
theorem claim_C1_updateCell_frame (res : List ComparisonPoint) (pid dim v : String)
    (hnodup : (res.map ComparisonPoint.criteria).Nodup)
    (hmem : dim ∈ res.map ComparisonPoint.criteria) :
    updateCell (some res) pid dim v = some (updateMatrix res pid dim v) ∧
    (updateMatrix res pid dim v).map ComparisonPoint.criteria
      = res.map ComparisonPoint.criteria ∧
    getCell (updateMatrix res pid dim v) dim pid = some v ∧
    (∀ dim' pid', ¬(dim' = dim ∧ pid' = pid) →
      getCell (updateMatrix res pid dim v) dim' pid' = getCell res dim' pid') ∧
    (∀ i (hi : i < res.length) (hi' : i < (updateMatrix res pid dim v).length),
      ((updateMatrix res pid dim v).get ⟨i, hi'⟩).criteria
          = (res.get ⟨i, hi⟩).criteria ∧
      ∀ pid', ¬((res.get ⟨i, hi⟩).criteria = dim ∧ pid' = pid) →
        lookupKey pid' ((updateMatrix res pid dim v).get ⟨i, hi'⟩).paperInsights
          = lookupKey pid' (res.get ⟨i, hi⟩).paperInsights) := by
  refine ⟨rfl, updateMatrix_map_criteria res pid dim v,
    getCell_updateMatrix_hit res pid dim v hmem,
    fun dim' pid' h => getCell_updateMatrix_miss res pid dim v dim' pid' h,
    fun i hi hi' => ?_⟩
  rw [updateMatrix_get_eq res pid dim v i hi hi']
  simp only [List.get_eq_getElem] at hi' ⊢
  by_cases h : res[i].criteria = dim
  · refine ⟨by rw [if_pos h], fun pid' hother => ?_⟩
    have hpid : pid' ≠ pid := fun hp =>
      hother ⟨by simpa [List.get_eq_getElem] using h, hp⟩
    rw [if_pos h]
    exact lookupKey_setKey_other hpid v _
  · exact ⟨by rw [if_neg h], fun pid' _ => by rw [if_neg h]⟩

/-- Witness for C1 at a concrete matrix with two distinct dimensions. -/
theorem claim_C1_witness :
    getCell
      (updateMatrix [⟨"A", [("p1", "x")]⟩, ⟨"B", [("p1", "y")]⟩] "p1" "B" "z")
      "B" "p1" = some "z" ∧
    getCell
      (updateMatrix [⟨"A", [("p1", "x")]⟩, ⟨"B", [("p1", "y")]⟩] "p1" "B" "z")
      "A" "p1" = some "x" := by
  have h := claim_C1_updateCell_frame
    [⟨"A", [("p1", "x")]⟩, ⟨"B", [("p1", "y")]⟩] "p1" "B" "z"
    (by decide) (by decide)
  exact ⟨h.2.2.1, by
    have := h.2.2.2.1 "A" "p1" (by simp)
    simpa using this⟩

/-- C9: an edit against an absent matrix, or naming a dimension that does
not occur, is a silent no-op: `updateCell` returns the previous matrix
value unchanged (no error is modelled because none can occur). -/
theorem updateMatrix_id_of_missing (pid dim v : String) :
    ∀ res : List ComparisonPoint, dim ∉ res.map ComparisonPoint.criteria →
      updateMatrix res pid dim v = res := by
  intro res
  induction res with
  | nil => intro _; rfl
  | cons p rest ih =>
      intro hmiss
      have hp : p.criteria ≠ dim := fun h => hmiss (by simp [h])
      have hrest : dim ∉ rest.map ComparisonPoint.criteria := by
        intro h; exact hmiss (by simp [h])
      rw [updateMatrix_cons, if_neg hp, ih hrest]

theorem claim_C9_updateCell_noop (pid dim v : String) (res : List ComparisonPoint)
    (hmiss : dim ∉ res.map ComparisonPoint.criteria) :
    updateCell none pid dim v = none ∧
    updateCell (some res) pid dim v = some res := by
  refine ⟨rfl, ?_⟩
  rw [updateCell, updateMatrix_id_of_missing pid dim v res hmiss]

/-- Witness for C9: editing a dimension name that is absent leaves the
concrete matrix untouched. -/
theorem claim_C9_witness :
    updateCell (some [⟨"A", [("p1", "x")]⟩]) "p1" "Missing" "z"
      = some [⟨"A", [("p1", "x")]⟩] :=
  (claim_C9_updateCell_noop "p1" "Missing" "z" [⟨"A", [("p1", "x")]⟩] (by decide)).2

/-- C10: with duplicate dimension names (uniqueness is assumed, not
enforced), `updateCell` rewrites the `(name, doc)` insight in **every**
dimension bearing that name, not only the first: each position whose
criteria equals `dim` ends up storing `text` for `doc`. -/
theorem claim_C10_updateCell_duplicates (res : List ComparisonPoint)
    (pid dim v : String) (i : Nat) (hi : i < res.length)
    (hi' : i < (updateMatrix res pid dim v).length)
    (hdim : (res.get ⟨i, hi⟩).criteria = dim) :
    lookupKey pid ((updateMatrix res pid dim v).get ⟨i, hi'⟩).paperInsights
      = some v := by
  rw [updateMatrix_get_eq res pid dim v i hi hi']
  simp only [List.get_eq_getElem] at hdim ⊢
  rw [if_pos hdim]
  exact lookupKey_setKey_self pid v _

/-- Witness for C10: a matrix with two dimensions both named "D"; one edit
changes the entry in both of them. -/
theorem claim_C10_witness :
    lookupKey "p1"
      ((updateMatrix [⟨"D", [("p1", "a")]⟩, ⟨"D", [("p1", "b")]⟩] "p1" "D" "z").get
        ⟨0, by decide⟩).paperInsights = some "z" ∧
    lookupKey "p1"
      ((updateMatrix [⟨"D", [("p1", "a")]⟩, ⟨"D", [("p1", "b")]⟩] "p1" "D" "z").get
        ⟨1, by decide⟩).paperInsights = some "z" :=
  ⟨claim_C10_updateCell_duplicates
      [⟨"D", [("p1", "a")]⟩, ⟨"D", [("p1", "b")]⟩] "p1" "D" "z" 0 (by decide)
      (by decide) (by decide),
   claim_C10_updateCell_duplicates
      [⟨"D", [("p1", "a")]⟩, ⟨"D", [("p1", "b")]⟩] "p1" "D" "z" 1 (by decide)
      (by decide) (by decide)⟩

/-! ## Claims about the Transposer (`activeResultIds`, filtering) -/

/-- C2: the active document set is exactly the id keys of the first
Dimension's insight mapping (empty when the matrix is absent or has no
Dimension); the table's pre-sort document list is the subsequence of the
input papers whose id lies in that set, in original relative order; and
the mappings of all non-first Dimensions are irrelevant to the active
set (hence to membership). -/
theorem claim_C2_activeResultIds (cr : Option (List ComparisonPoint))
    (papers : List Paper) :
    activeResultIds none = [] ∧
    activeResultIds (some []) = [] ∧
    (∀ d0 rest, activeResultIds (some (d0 :: rest))
        = d0.paperInsights.map Prod.fst) ∧
    List.Sublist (baseTablePapers cr papers) papers ∧
    (∀ p, p ∈ baseTablePapers cr papers ↔
        p ∈ papers ∧ p.id ∈ activeResultIds cr) ∧
    (∀ d0 rest rest' ps, baseTablePapers (some (d0 :: rest)) ps
        = baseTablePapers (some (d0 :: rest')) ps) := by
  refine ⟨rfl, rfl, fun d0 rest => rfl, List.filter_sublist papers,
    fun p => ?_, fun d0 rest rest' ps => rfl⟩
  simp [baseTablePapers, List.mem_filter]

/-! ## Claims about the Sorter (`tablePapers`) -/

theorem findModelCriteria_first :
    ∀ res mc, findModelCriteria res = some mc →
      isModelCriteria mc = true ∧
      ∃ pre post, res = pre ++ mc :: post ∧ ∀ c ∈ pre, isModelCriteria c = false := by
  intro res
  induction res with
  | nil => intro mc h; simp [findModelCriteria] at h
  | cons p rest ih =>
      intro mc h
      by_cases hp : isModelCriteria p = true
      · rw [findModelCriteria, List.find?_cons_of_pos rest hp] at h
        cases h
        exact ⟨hp, [], rest, rfl, by simp⟩
      · rw [findModelCriteria, List.find?_cons_of_neg rest hp] at h
        obtain ⟨hmc, pre, post, heq, hpre⟩ := ih mc h
        refine ⟨hmc, p :: pre, post, by rw [heq]; rfl, ?_⟩
        intro c hc
        rcases List.mem_cons.mp hc with hc | hc
        · subst hc; simpa using hp
        · exact hpre c hc

/-- C3: the Sorter selects the first Dimension (in matrix order) whose
lowercased name contains "model" or "architecture"; when one exists the
table is the stable sort of the pre-sort document list by that Dimension's
lowercased insight text (empty when absent) in lexicographic order — the
result is sorted by the key, is a permutation of the input, and documents
with equal keys keep their prior relative order; with no matching
Dimension the baseline order is returned unchanged. -/
theorem claim_C3_sorter (res : List ComparisonPoint) (papers : List Paper) :
    (findModelCriteria res = none →
      (∀ c ∈ res, isModelCriteria c = false) ∧
      tablePapers (some res) papers = baseTablePapers (some res) papers) ∧
    (∀ mc, findModelCriteria res = some mc →
      (isModelCriteria mc = true ∧
        ∃ pre post, res = pre ++ mc :: post ∧
          ∀ c ∈ pre, isModelCriteria c = false) ∧
      List.Sorted (fun a b => sortKey mc a ≤ sortKey mc b)
        (tablePapers (some res) papers) ∧
      (tablePapers (some res) papers).Perm (baseTablePapers (some res) papers) ∧
      (∀ k : List Char,
        (tablePapers (some res) papers).filter (fun p => sortKey mc p == k)
          = (baseTablePapers (some res) papers).filter (fun p => sortKey mc p == k))) := by
  constructor
  · intro hnone
    refine ⟨fun c hc => ?_, ?_⟩
    · have := List.find?_eq_none.mp hnone c hc
      simpa using this
    · simp only [tablePapers, hnone]
  · intro mc hmc
    have hsel := findModelCriteria_first res mc hmc
    have htp : tablePapers (some res) papers =
        List.insertionSort (fun a b => sortKey mc a ≤ sortKey mc b)
          (baseTablePapers (some res) papers) := by
      simp only [tablePapers, hmc]
    haveI : IsTotal Paper (fun a b => sortKey mc a ≤ sortKey mc b) :=
      ⟨fun a b => le_total _ _⟩
    haveI : IsTrans Paper (fun a b => sortKey mc a ≤ sortKey mc b) :=
      ⟨fun a b c h1 h2 => le_trans h1 h2⟩
    refine ⟨hsel, ?_, ?_, ?_⟩
    · rw [htp]
      exact List.sorted_insertionSort _ _
    · rw [htp]
      exact List.perm_insertionSort _ _
    · intro k
      rw [htp]
      set q : Paper → Bool := fun p => sortKey mc p == k with hq
      set base := baseTablePapers (some res) papers with hbase
      have hkey : ∀ p, q p = true → sortKey mc p = k := by
        intro p hp
        simpa [hq] using hp
      have hpair : (base.filter q).Pairwise (fun a b => sortKey mc a ≤ sortKey mc b) := by
        have hall : ∀ a ∈ base.filter q, ∀ b ∈ base.filter q,
            sortKey mc a ≤ sortKey mc b := by
          intro a ha b hb
          have ha' := hkey a (List.of_mem_filter ha)
          have hb' := hkey b (List.of_mem_filter hb)
          rw [ha', hb']
        exact List.pairwise_of_forall_mem_list hall
      have hsub : List.Sublist (base.filter q)
          (List.insertionSort (fun a b => sortKey mc a ≤ sortKey mc b) base) :=
        List.sublist_insertionSort hpair (List.filter_sublist base)
      have hself : (base.filter q).filter q = base.filter q := by
        rw [List.filter_filter]
        apply List.filter_congr
        intro p hp
        simp [List.mem_filter.mp hp |>.2]
      have hsub2 : List.Sublist (base.filter q)
          ((List.insertionSort (fun a b => sortKey mc a ≤ sortKey mc b) base).filter q) := by
        rw [← hself]
        exact List.Sublist.filter q hsub
      have hlen : (base.filter q).length =
          ((List.insertionSort (fun a b => sortKey mc a ≤ sortKey mc b) base).filter q).length := by
        have hperm := (List.perm_insertionSort
          (fun a b => sortKey mc a ≤ sortKey mc b) base).filter q
        exact (hperm.length_eq).symm
      exact (List.Sublist.eq_of_length hsub2 hlen).symm

/-- Witness for C3 on the spec's own example: dimension names
`["Study Design", "Model/Architecture/Tools Used", "Key Findings"]` select
the second dimension, and the concrete table is sorted by its insights. -/
theorem claim_C3_witness :
    List.Sorted
      (fun a b => sortKey ⟨"Model/Architecture/Tools Used",
          [("p1", "zzz"), ("p2", "aaa")]⟩ a
        ≤ sortKey ⟨"Model/Architecture/Tools Used",
          [("p1", "zzz"), ("p2", "aaa")]⟩ b)
      (tablePapers
        (some [⟨"Study Design", [("p1", "s1"), ("p2", "s2")]⟩,
               ⟨"Model/Architecture/Tools Used", [("p1", "zzz"), ("p2", "aaa")]⟩,
               ⟨"Key Findings", []⟩])
        [⟨"p1", "T1", "F1"⟩, ⟨"p2", "T2", "F2"⟩]) :=
  (((claim_C3_sorter
      [⟨"Study Design", [("p1", "s1"), ("p2", "s2")]⟩,
       ⟨"Model/Architecture/Tools Used", [("p1", "zzz"), ("p2", "aaa")]⟩,
       ⟨"Key Findings", []⟩]
      [⟨"p1", "T1", "F1"⟩, ⟨"p2", "T2", "F2"⟩]).2
    ⟨"Model/Architecture/Tools Used", [("p1", "zzz"), ("p2", "aaa")]⟩
    (by decide)).2).1

/-! ## Claims about the CSV exporter (`downloadCSV`) -/

theorem escapeQuotesChars_eq_flatMap :
    ∀ l : List Char,
      escapeQuotesChars l = l.flatMap fun c => if c = '"' then ['"', '"'] else [c] := by
  intro l
  induction l with
  | nil => rfl
  | cons c rest ih =>
      by_cases h : c = '"'
      · simp [escapeQuotesChars, h, ih]
      · simp [escapeQuotesChars, h, ih]

theorem stripBoldChars_cons_of_ne {c : Char} (hc : c ≠ '*') (l : List Char) :
    stripBoldChars (c :: l) = c :: stripBoldChars l := by
  rw [stripBoldChars.eq_def]
  split
  · rename_i rest heq
    rw [List.cons.injEq] at heq
    exact absurd heq.1 hc
  · rename_i c' rest heq
    rw [List.cons.injEq] at heq
    rw [heq.1, heq.2]
  · rename_i heq
    exact absurd heq (by simp)

theorem stripBoldChars_append_noStar :
    ∀ a b : List Char, '*' ∉ a →
      stripBoldChars (a ++ '*' :: '*' :: b) = a ++ stripBoldChars b := by
  intro a
  induction a with
  | nil => intro b _; rfl
  | cons c a' ih =>
      intro b h
      have hc : c ≠ '*' := fun h' => h (by simp [h'])
      have ha' : '*' ∉ a' := fun h' => h (by simp [h'])
      rw [List.cons_append, stripBoldChars_cons_of_ne hc, ih b ha']
      rfl

/-- C4 counterexample: the two fixed header fields and the dimension names
are NOT quote-wrapped in the produced CSV — the concrete export's header
line is `Paper Title,Authors/Year (Ref),Dim`, which differs from the
all-fields-quoted header the claim requires. -/
theorem claim_C4_counterexample :
    csvHeader [⟨"Dim", []⟩] = "Paper Title,Authors/Year (Ref),Dim" ∧
    csvHeader [⟨"Dim", []⟩]
      ≠ joinWith "," [csvQuote "Paper Title", csvQuote "Authors/Year (Ref)",
          csvQuote "Dim"] ∧
    downloadCSV (some [⟨"Dim", [("d1", "x")]⟩]) [⟨"d1", "T", "F"⟩] ["d1"]
      = some "Paper Title,Authors/Year (Ref),Dim\n\"T\",\"F\",\"x\"" :=
  ⟨by decide, by decide, by decide⟩

/-- C4 (amended): every **data** field is wrapped in double quotes with
each internal quote doubled (character-level characterization of
`csvQuote`), each insight field is first normalized by deleting every
literal `**` and replacing every `-` by `•`, fields are joined by commas
and rows by line breaks; the header fields, however, are joined without
quoting.  The spec's escaping example holds for data fields. -/
theorem claim_C4_csv_escaping :
    (∀ s : String, (csvQuote s).data
        = '"' :: ((s.data.flatMap fun c => if c = '"' then ['"', '"'] else [c])
            ++ ['"'])) ∧
    (∀ a b : List Char, '*' ∉ a →
        stripBoldChars (a ++ '*' :: '*' :: b) = a ++ stripBoldChars b) ∧
    dashToDot '-' = '•' ∧
    (∀ c : Char, c ≠ '-' → dashToDot c = c) ∧
    csvQuote (normalizeInsight "He said \"hi\" - ok")
      = "\"He said \"\"hi\"\" • ok\"" ∧
    (∀ res : List ComparisonPoint,
      csvHeader res = joinWith ","
        ("Paper Title" :: "Authors/Year (Ref)" :: res.map fun c => c.criteria)) := by
  refine ⟨fun s => ?_, stripBoldChars_append_noStar, rfl, fun c hc => ?_,
    by decide, fun res => rfl⟩
  · simp [csvQuote, escapeQuotesChars_eq_flatMap]
  · simp [dashToDot, hc]

/-- Witness for C4 (amended) at the `**`-stripping conjunct. -/
theorem claim_C4_witness :
    stripBoldChars ("ab".data ++ '*' :: '*' :: "cd".data) = "ab".data ++ stripBoldChars "cd".data :=
  claim_C4_csv_escaping.2.1 "ab".data "cd".data (by decide)

theorem paperIdsInResult_eq_activeResultIds (res : List ComparisonPoint) :
    paperIdsInResult res = activeResultIds (some res) := by
  cases res <;> rfl

theorem downloadCSV_eq_of_selected (res : List ComparisonPoint)
    (papers : List Paper) (sel : List String) (hsel : sel ≠ []) :
    downloadCSV (some res) papers sel
      = some (csvContent res (baseTablePapers (some res) papers)) := by
  have hne : sel.isEmpty = false := by
    cases sel with
    | nil => exact absurd rfl hsel
    | cons a t => rfl
  simp only [downloadCSV, hne, Bool.false_eq_true, if_false, baseTablePapers,
    paperIdsInResult_eq_activeResultIds]

/-- C5 counterexample: with a "Model" dimension whose insights reverse the
baseline order, the sorted table is `[p2, p1]` but the exported CSV lists
the row of `p1` first — the export follows the baseline filtered order,
not the Transposer+Sorter order. -/
theorem claim_C5_counterexample :
    tablePapers (some [⟨"Model", [("p1", "zzz"), ("p2", "aaa")]⟩])
        [⟨"p1", "T1", "F1"⟩, ⟨"p2", "T2", "F2"⟩]
      = [⟨"p2", "T2", "F2"⟩, ⟨"p1", "T1", "F1"⟩] ∧
    downloadCSV (some [⟨"Model", [("p1", "zzz"), ("p2", "aaa")]⟩])
        [⟨"p1", "T1", "F1"⟩, ⟨"p2", "T2", "F2"⟩] ["p1", "p2"]
      = some (csvContent [⟨"Model", [("p1", "zzz"), ("p2", "aaa")]⟩]
          [⟨"p1", "T1", "F1"⟩, ⟨"p2", "T2", "F2"⟩]) ∧
    csvContent [⟨"Model", [("p1", "zzz"), ("p2", "aaa")]⟩]
        [⟨"p1", "T1", "F1"⟩, ⟨"p2", "T2", "F2"⟩]
      ≠ csvContent [⟨"Model", [("p1", "zzz"), ("p2", "aaa")]⟩]
          (tablePapers (some [⟨"Model", [("p1", "zzz"), ("p2", "aaa")]⟩])
            [⟨"p1", "T1", "F1"⟩, ⟨"p2", "T2", "F2"⟩]) :=
  ⟨by decide, by decide, by decide⟩

/-- C5 (amended): the data rows of the exported CSV follow the **baseline**
filtered document order — the subsequence of the input papers whose id
occurs in the first Dimension's mapping, in original order (the same list
the Transposer produces before sorting) — independently of any
model/architecture sort applied to the rendered table. -/
theorem claim_C5_export_order (res : List ComparisonPoint)
    (papers : List Paper) (sel : List String) (hsel : sel ≠ []) :
    paperIdsInResult res = activeResultIds (some res) ∧
    downloadCSV (some res) papers sel
      = some (csvContent res (baseTablePapers (some res) papers)) :=
  ⟨paperIdsInResult_eq_activeResultIds res,
   downloadCSV_eq_of_selected res papers sel hsel⟩

/-- Witness for C5 (amended) at a concrete matrix and paper list. -/
theorem claim_C5_witness :
    downloadCSV (some [⟨"A", [("p1", "x")]⟩]) [⟨"p1", "T", "F"⟩] ["p1"]
      = some (csvContent [⟨"A", [("p1", "x")]⟩]
          (baseTablePapers (some [⟨"A", [("p1", "x")]⟩]) [⟨"p1", "T", "F"⟩])) :=
  (claim_C5_export_order [⟨"A", [("p1", "x")]⟩] [⟨"p1", "T", "F"⟩] ["p1"]
    (by decide)).2

/-- C6 counterexample: a present matrix whose first Dimension has an empty
insight mapping yields an empty Transposer+Sorter document list, yet with
a non-empty selection the export still produces output — the bare header
row — contradicting the claimed no-op. -/
theorem claim_C6_counterexample :
    tablePapers (some [⟨"A", []⟩]) [⟨"p1", "T", "F"⟩] = [] ∧
    downloadCSV (some [⟨"A", []⟩]) [⟨"p1", "T", "F"⟩] ["p1"]
      = some "Paper Title,Authors/Year (Ref),A" ∧
    downloadCSV (some [⟨"A", []⟩]) [⟨"p1", "T", "F"⟩] ["p1"] ≠ none :=
  ⟨by decide, by decide, by decide⟩

/-- C6 (amended): the export's no-op guard tests the matrix and the
user's selection, not the derived document list: it produces nothing
exactly when the matrix is absent or no papers are selected; when the
derived document list is empty but the guard passes, the output is
exactly the header row.  (The export reads but never produces a matrix,
so the matrix value is unchanged by construction.) -/
theorem claim_C6_export_guard :
    (∀ (papers : List Paper) (sel : List String),
      downloadCSV none papers sel = none) ∧
    (∀ (cr : Option (List ComparisonPoint)) (papers : List Paper),
      downloadCSV cr papers [] = none) ∧
    (∀ (res : List ComparisonPoint) (papers : List Paper) (sel : List String),
      sel ≠ [] → baseTablePapers (some res) papers = [] →
      downloadCSV (some res) papers sel = some (csvHeader res)) := by
  refine ⟨fun papers sel => rfl, fun cr papers => ?_,
    fun res papers sel hsel hempty => ?_⟩
  · cases cr <;> rfl
  · rw [downloadCSV_eq_of_selected res papers sel hsel, hempty]
    rfl

/-- Witness for C6 (amended): header-only output at a concrete empty
first dimension. -/
theorem claim_C6_witness :
    downloadCSV (some [⟨"A", []⟩, ⟨"B", [("p1", "y")]⟩]) [⟨"p1", "T", "F"⟩] ["p1"]
      = some (csvHeader [⟨"A", []⟩, ⟨"B", [("p1", "y")]⟩]) :=
  claim_C6_export_guard.2.2 [⟨"A", []⟩, ⟨"B", [("p1", "y")]⟩]
    [⟨"p1", "T", "F"⟩] ["p1"] (by decide) (by decide)

/-! ## Claim about the cell editor (`EditableCell`) -/

/-- C7: leaving edit mode normally (blur) always commits the draft to the
store — even a draft textually equal to the baseline — so the stored
insight becomes the draft; an Escape cancellation performs no store
update, reverts the displayed draft to the baseline, and leaves the
stored insight at the baseline. -/
theorem claim_C7_cell_editor (res : List ComparisonPoint) (pid dim b d : String)
    (e : Bool) (hmem : dim ∈ res.map ComparisonPoint.criteria)
    (hb : getCell res dim pid = some b) :
    (handleBlur pid dim ⟨some res, d, e⟩).comparisonResult
        = some (updateMatrix res pid dim d) ∧
    getCell (updateMatrix res pid dim d) dim pid = some d ∧
    (handleBlur pid dim ⟨some res, b, e⟩).comparisonResult
        = some (updateMatrix res pid dim b) ∧
    getCell (updateMatrix res pid dim b) dim pid = some b ∧
    (handleBlur pid dim ⟨some res, d, e⟩).isEditing = false ∧
    (handleEscape b ⟨some res, d, e⟩).comparisonResult = some res ∧
    (handleEscape b ⟨some res, d, e⟩).value = b ∧
    (handleEscape b ⟨some res, d, e⟩).isEditing = false ∧
    getCell res dim pid = some b :=
  ⟨rfl, getCell_updateMatrix_hit res pid dim d hmem, rfl,
   getCell_updateMatrix_hit res pid dim b hmem, rfl, rfl, rfl, rfl, hb⟩

/-- Witness for C7 on the spec's example: baseline "abc", draft "abcd";
blur stores "abcd", Escape keeps "abc". -/
theorem claim_C7_witness :
    getCell (updateMatrix [⟨"Dim", [("p1", "abc")]⟩] "p1" "Dim" "abcd") "Dim" "p1"
      = some "abcd" ∧
    (handleEscape "abc" ⟨some [⟨"Dim", [("p1", "abc")]⟩], "abcd", true⟩).comparisonResult
      = some [⟨"Dim", [("p1", "abc")]⟩] ∧
    getCell [⟨"Dim", [("p1", "abc")]⟩] "Dim" "p1" = some "abc" :=
  have h := claim_C7_cell_editor [⟨"Dim", [("p1", "abc")]⟩] "p1" "Dim" "abc" "abcd"
    true (by decide) (by decide)
  ⟨h.2.1, h.2.2.2.2.2.1, h.2.2.2.2.2.2.2.2⟩

/-! ## Claim about viewing-mode rendering (`renderContent`) -/

theorem splitBoldScan_cons_outside {c : Char} (hc : c ≠ '*')
    (rest pre mid : List Char) :
    splitBoldScan (c :: rest) pre false mid
      = splitBoldScan rest (pre ++ [c]) false [] := by
  rw [splitBoldScan.eq_def]
  simp [hc]

theorem splitBoldScan_cons_inside {c : Char} (hc : c ≠ '*')
    (rest pre mid : List Char) :
    splitBoldScan (c :: rest) pre true mid
      = splitBoldScan rest pre true (mid ++ [c]) := by
  rw [splitBoldScan.eq_def]
  simp [hc]

theorem splitBoldScan_append_noStar_outside :
    ∀ a l pre : List Char, '*' ∉ a →
      splitBoldScan (a ++ l) pre false [] = splitBoldScan l (pre ++ a) false [] := by
  intro a
  induction a with
  | nil => intro l pre _; simp
  | cons c a' ih =>
      intro l pre h
      have hc : c ≠ '*' := fun h' => h (by simp [h'])
      have ha' : '*' ∉ a' := fun h' => h (by simp [h'])
      rw [List.cons_append, splitBoldScan_cons_outside hc, ih l (pre ++ [c]) ha']
      simp

theorem splitBoldScan_append_noStar_inside :
    ∀ b l pre mid : List Char, '*' ∉ b →
      splitBoldScan (b ++ l) pre true mid = splitBoldScan l pre true (mid ++ b) := by
  intro b
  induction b with
  | nil => intro l pre mid _; simp
  | cons c b' ih =>
      intro l pre mid h
      have hc : c ≠ '*' := fun h' => h (by simp [h'])
      have hb' : '*' ∉ b' := fun h' => h (by simp [h'])
      rw [List.cons_append, splitBoldScan_cons_inside hc, ih l pre (mid ++ [c]) hb']
      simp

theorem splitBoldScan_noStar_only (a : List Char) (h : '*' ∉ a) :
    splitBoldScan a [] false [] = [a] := by
  have h1 := splitBoldScan_append_noStar_outside a [] [] h
  simpa using h1

theorem noStar_not_startsWith {a : List Char} (h : '*' ∉ a) :
    startsWithChars a ['*', '*'] = false := by
  cases a with
  | nil => rfl
  | cons x xs =>
      have hx : x ≠ '*' := fun h' => h (by simp [h'])
      simp [startsWithChars, hx]

theorem partToInline_plain_of_noStar (a : List Char) (h : '*' ∉ a) :
    partToInline a = Inline.plain ⟨a⟩ := by
  simp [partToInline, noStar_not_startsWith h]

theorem partToInline_bold (b : List Char) :
    partToInline ('*' :: '*' :: (b ++ ['*', '*'])) = Inline.bold ⟨b⟩ := by
  have hstart : startsWithChars ('*' :: '*' :: (b ++ ['*', '*'])) ['*', '*'] = true := by
    simp [startsWithChars]
  have hend : endsWithChars ('*' :: '*' :: (b ++ ['*', '*'])) ['*', '*'] = true := by
    simp only [endsWithChars, List.reverse_cons, List.reverse_append]
    simp [startsWithChars]
  have hdrop : (('*' :: '*' :: (b ++ ['*', '*'])).drop 2).dropLast.dropLast = b := by
    have h1 : ('*' :: '*' :: (b ++ ['*', '*'])).drop 2 = b ++ ['*', '*'] := rfl
    rw [h1, show b ++ ['*', '*'] = (b ++ ['*']) ++ ['*'] by simp,
      List.dropLast_concat, List.dropLast_concat]
  simp [partToInline, hstart, hend, hdrop]

theorem renderLine_paired {a b c : List Char}
    (ha : '*' ∉ a) (hb : '*' ∉ b) (hc : '*' ∉ c) :
    renderLine (a ++ '*' :: '*' :: (b ++ '*' :: '*' :: c))
      = [Inline.plain ⟨a⟩, Inline.bold ⟨b⟩, Inline.plain ⟨c⟩] := by
  have hsplit : splitBoldChars (a ++ '*' :: '*' :: (b ++ '*' :: '*' :: c))
      = [a, '*' :: '*' :: (b ++ ['*', '*']), c] := by
    rw [splitBoldChars, splitBoldScan_append_noStar_outside a _ [] ha,
      List.nil_append,
      show splitBoldScan ('*' :: '*' :: (b ++ '*' :: '*' :: c)) a false []
          = splitBoldScan (b ++ '*' :: '*' :: c) a true [] from rfl,
      splitBoldScan_append_noStar_inside b _ a [] hb, List.nil_append,
      show splitBoldScan ('*' :: '*' :: c) a true b
          = a :: ('*' :: '*' :: (b ++ ['*', '*'])) :: splitBoldScan c [] false []
        from rfl,
      splitBoldScan_noStar_only c hc]
  rw [renderLine, hsplit]
  simp [partToInline_plain_of_noStar a ha, partToInline_plain_of_noStar c hc,
    partToInline_bold b]

theorem renderLine_unterminated {a b : List Char}
    (ha : '*' ∉ a) (hb : '*' ∉ b) (hne : a ≠ [] ∨ b ≠ []) :
    renderLine (a ++ '*' :: '*' :: b)
      = [Inline.plain ⟨a ++ '*' :: '*' :: b⟩] := by
  have hsplit : splitBoldChars (a ++ '*' :: '*' :: b) = [a ++ '*' :: '*' :: b] := by
    rw [splitBoldChars, splitBoldScan_append_noStar_outside a _ [] ha,
      List.nil_append,
      show splitBoldScan ('*' :: '*' :: b) a false []
          = splitBoldScan b a true [] from rfl]
    have h2 : splitBoldScan b a true [] = splitBoldScan [] a true b := by
      have := splitBoldScan_append_noStar_inside b [] a [] hb
      simpa using this
    rw [h2]
    rfl
  rw [renderLine, hsplit]
  have hplain : partToInline (a ++ '*' :: '*' :: b)
      = Inline.plain ⟨a ++ '*' :: '*' :: b⟩ := by
    cases a with
    | cons x xs =>
        have hx : x ≠ '*' := fun h' => ha (by simp [h'])
        simp [partToInline, startsWithChars, hx]
    | nil =>
        have hbne : b ≠ [] := by
          rcases hne with h | h
          · exact absurd rfl h
          · exact h
        obtain ⟨y, t, hyt⟩ : ∃ y t, b.reverse = y :: t := by
          cases hrev : b.reverse with
          | nil => exact absurd (List.reverse_eq_nil_iff.mp hrev) hbne
          | cons y t => exact ⟨y, t, rfl⟩
        have hy : y ∈ b := by
          have : y ∈ b.reverse := by rw [hyt]; simp
          simpa using this
        have hyne : y ≠ '*' := fun h' => hb (h' ▸ hy)
        have hrev : ('*' :: '*' :: b).reverse = y :: (t ++ ['*', '*']) := by
          simp [hyt]
        have hendf : endsWithChars ('*' :: '*' :: b) ['*', '*'] = false := by
          rw [endsWithChars, hrev]
          simp [startsWithChars, hyne]
        simp [partToInline, hendf]
  simp [hplain]

/-- C8 counterexample: the stored text `**` (one unterminated emphasis
marker) does not render as the literal characters `**`; it renders as an
emphasized empty span, so the displayed text is empty. -/
theorem claim_C8_counterexample :
    renderContent "**" = Rendered.content [Block.para [Inline.bold ""]] ∧
    renderedText (renderContent "**") = "" ∧
    renderContent "**" ≠ Rendered.content [Block.para [Inline.plain "**"]] :=
  ⟨by decide, by decide, by decide⟩

/-- C8 (amended): rendering splits on line breaks, drops blank lines,
marks a line as a bullet iff its trimmed form starts with `- ` or `* `
(marker stripped), renders a non-greedy non-overlapping `**…**` pair as an
emphasized span, and renders an unmatched or unterminated `**` as literal
characters — EXCEPT that a residual split segment which itself both starts
and ends with `**` (the segments `**` and `***`) renders as an empty
emphasized span instead of literal characters.  The spec's bullet/emphasis
example renders as claimed. -/
theorem claim_C8_render :
    renderContent "- **p<0.001**\nplain line"
      = Rendered.content
          [Block.bullet [Inline.plain "", Inline.bold "p<0.001", Inline.plain ""],
           Block.para [Inline.plain "plain line"]] ∧
    renderContent "**" = Rendered.content [Block.para [Inline.bold ""]] ∧
    renderContent "***" = Rendered.content [Block.para [Inline.bold ""]] ∧
    (∀ a b c : List Char, '*' ∉ a → '*' ∉ b → '*' ∉ c →
      renderLine (a ++ '*' :: '*' :: (b ++ '*' :: '*' :: c))
        = [Inline.plain ⟨a⟩, Inline.bold ⟨b⟩, Inline.plain ⟨c⟩]) ∧
    (∀ a b : List Char, '*' ∉ a → '*' ∉ b → (a ≠ [] ∨ b ≠ []) →
      renderLine (a ++ '*' :: '*' :: b)
        = [Inline.plain ⟨a ++ '*' :: '*' :: b⟩]) :=
  ⟨by decide, by decide, by decide,
   fun a b c ha hb hc => renderLine_paired ha hb hc,
   fun a b ha hb hne => renderLine_unterminated ha hb hne⟩

/-- Witness for C8 (amended): a concrete matched pair and a concrete
unterminated marker. -/
theorem claim_C8_witness :
    renderLine ("x".data ++ '*' :: '*' :: ("y".data ++ '*' :: '*' :: "z".data))
      = [Inline.plain "x", Inline.bold "y", Inline.plain "z"] ∧
    renderLine ("x".data ++ '*' :: '*' :: "y".data)
      = [Inline.plain ⟨"x".data ++ '*' :: '*' :: "y".data⟩] :=
  ⟨claim_C8_render.2.2.2.1 "x".data "y".data "z".data
      (by decide) (by decide) (by decide),
   claim_C8_render.2.2.2.2 "x".data "y".data
      (by decide) (by decide) (Or.inl (by decide))⟩

end NeuroLit
